import Mathlib

/-!
Verification of the ClinicPro clinic-booking system persistence layer.

Shallow embedding of `src/assets/scripts/core/database.js` (the
`DatabaseService` wrapper around IndexedDB) and of the dashboard helper
`updateUpcomingAppointments` from `src/assets/scripts/app.js`.

Modelling decisions, shared by all definitions below:

* An IndexedDB object store is modelled as a `List` of records in insertion
  order, together with a `StoreConfig` carrying the store's `keyPath` and
  its index declarations (mirroring the literal configuration object passed
  to `new DatabaseService({...})` in `ClinicProApp.initCoreModules`,
  `app.js` lines 75-110).
* `store.add` follows the IndexedDB contract invoked by `DatabaseService.add`:
  it rejects (ConstraintError) when a record with the same primary key is
  already stored, or when a `unique : true` index already holds the new
  record's index key; otherwise it appends the record.
* `store.put` (invoked by `DatabaseService.update`) replaces the record with
  the same primary key, or appends when the key is absent; it rejects when a
  `unique : true` index key of the new record collides with a record stored
  under a DIFFERENT primary key.
* `store.get`, `store.getAll`, `store.delete`, `store.clear` are the obvious
  total operations; `get` resolves with `undefined` (here `none`) when the
  key is absent, `delete` and `clear` always resolve.
* Promise sequences (`Promise.all` over independent single-record
  transactions, as in `saveAll` and the bulk part of the JSON import) are
  modelled by folds that attempt every operation, keep the effects of the
  successful ones, and report an overall success flag - a single failing
  record rejects the whole promise but does not roll back the others.
* JavaScript string comparison (`>=` on strings and `localeCompare` as used
  on ASCII date / time strings) is embedded as lexicographic comparison of
  the character list, `strLE` below.
* `JSON.stringify` / `JSON.parse` round-tripping of plain record objects is
  taken as faithful: bundles are modelled structurally (`Bundle`), and
  `new Date().toISOString()` is an opaque caller-supplied string.
-/

/-- A record of the `doctors` store (fields per the quick-add form and the
store's index declarations in `app.js`). -/
structure Doctor where
  id : String
  name : String
  specialty : String
  isActive : Bool
deriving DecidableEq, Repr

/-- A record of the `patients` store. -/
structure Patient where
  id : String
  name : String
  phone : String
  age : Nat
  gender : String
  createdAt : String
deriving DecidableEq, Repr

/-- A record of the `appointments` store. -/
structure Appointment where
  id : String
  date : String
  time : String
  status : String
  type : String
  doctorId : String
  patientId : String
  createdAt : String
deriving DecidableEq, Repr

/-- Lexicographic comparison of character lists: the embedding of
JavaScript's code-unit string order (`<=` between `a` and `b` strings,
equivalently `localeCompare` giving a non-positive result on the ASCII
date / time strings handled here). -/
def charsLE : List Char → List Char → Bool
  | [], _ => true
  | _ :: _, [] => false
  | a :: s, b :: t => if a = b then charsLE s t else decide (a < b)

/-- String comparison as JavaScript performs it on `a.date >= today` and
`a.time.localeCompare(b.time)`. -/
def strLE (a b : String) : Bool :=
  charsLE a.data b.data

/-- Declaration of one secondary index of a store, as passed to
`store.createIndex(index.name, index.keyPath, { unique: index.unique })`
in `DatabaseService.init`. Index key paths are encoded as string-valued
extractors. -/
structure IndexConfig (α : Type) where
  name : String
  keyPath : α → String
  unique : Bool

/-- Configuration of one object store, as in the `stores` array handed to
the `DatabaseService` constructor. -/
structure StoreConfig (α : Type) where
  name : String
  keyPath : α → String
  indexes : List (IndexConfig α)

/-- Key extractors of the indexes declared with `unique: true`; these are
the uniqueness constraints IndexedDB enforces on `add` and `put`. -/
def uniqueKeys {α : Type} (c : StoreConfig α) : List (α → String) :=
  (c.indexes.filter (fun i => i.unique)).map (fun i => i.keyPath)

/-- Phone extractor of a patient record, the key path of the unique
`phone` index of the `patients` store. -/
def phoneKey : Patient → String :=
  fun p => p.phone

/-- The `doctors` store configuration from `ClinicProApp.initCoreModules`:
keyPath `id`, non-unique indexes `name`, `specialty`, `isActive`. -/
def doctorsStore : StoreConfig Doctor :=
  ⟨"doctors", fun d => d.id,
    [⟨"name", fun d => d.name, false⟩,
     ⟨"specialty", fun d => d.specialty, false⟩,
     ⟨"isActive", fun d => toString d.isActive, false⟩]⟩

/-- The `patients` store configuration: keyPath `id`, indexes `name`
(non-unique), `phone` (UNIQUE), `createdAt` (non-unique). -/
def patientsStore : StoreConfig Patient :=
  ⟨"patients", fun p => p.id,
    [⟨"name", fun p => p.name, false⟩,
     ⟨"phone", phoneKey, true⟩,
     ⟨"createdAt", fun p => p.createdAt, false⟩]⟩

/-- The `appointments` store configuration: keyPath `id`, non-unique
indexes `date`, `status`, `doctorId`, `patientId`. -/
def appointmentsStore : StoreConfig Appointment :=
  ⟨"appointments", fun a => a.id,
    [⟨"date", fun a => a.date, false⟩,
     ⟨"status", fun a => a.status, false⟩,
     ⟨"doctorId", fun a => a.doctorId, false⟩,
     ⟨"patientId", fun a => a.patientId, false⟩]⟩

/-- The database name handed to `indexedDB.open` (`app.js` line 78). -/
def dbName : String :=
  "clinicpro_db"

/-- The database version handed to `indexedDB.open` and written into
export bundles (`app.js` line 79, `database.js` line 180). -/
def dbVersion : Nat :=
  2

namespace DatabaseService

variable {α : Type}

/-- Whether some stored record has primary key `k`. -/
def hasKey (c : StoreConfig α) (s : List α) (k : String) : Bool :=
  s.any (fun y => c.keyPath y == k)

/-- Whether adding `x` would violate a unique index: some stored record
(of any key) already holds one of `x`'s unique index keys. -/
def uniqueAddConflict (c : StoreConfig α) (s : List α) (x : α) : Bool :=
  (uniqueKeys c).any (fun f => s.any (fun y => f y == f x))

/-- Whether putting `x` would violate a unique index: a record stored
under a different primary key already holds one of `x`'s unique index
keys. -/
def uniquePutConflict (c : StoreConfig α) (s : List α) (x : α) : Bool :=
  (uniqueKeys c).any (fun f => s.any (fun y => (c.keyPath y != c.keyPath x) && (f y == f x)))

/-- Embedding of `DatabaseService.add` (`database.js` lines 55-64):
`store.add(item)` rejects on a duplicate primary key or a unique index
violation, and otherwise inserts the record. -/
def add (c : StoreConfig α) (s : List α) (x : α) : Except Unit (List α) :=
  if hasKey c s (c.keyPath x) || uniqueAddConflict c s x then .error ()
  else .ok (s ++ [x])

/-- Embedding of `DatabaseService.get` (`database.js` lines 69-78):
`store.get(key)` resolves with the stored record of that key, or with an
empty result when the key is absent. -/
def get (c : StoreConfig α) (s : List α) (k : String) : Option α :=
  s.find? (fun y => c.keyPath y == k)

/-- Embedding of `DatabaseService.getAll` (`database.js` lines 83-97) in
its default form (no index name, no query): every record of the store. -/
def getAll (_c : StoreConfig α) (s : List α) : List α :=
  s

/-- The successful effect of `store.put(item)`: replace the record stored
under the same primary key, or append when the key is absent. -/
def putList (c : StoreConfig α) (s : List α) (x : α) : List α :=
  if hasKey c s (c.keyPath x) then
    s.map (fun y => if c.keyPath y == c.keyPath x then x else y)
  else s ++ [x]

/-- Embedding of `DatabaseService.update` (`database.js` lines 102-111):
`store.put(item)` rejects when a unique index key of `item` collides with
a record stored under a different primary key, and otherwise
inserts-or-replaces by primary key. -/
def update (c : StoreConfig α) (s : List α) (x : α) : Except Unit (List α) :=
  if uniquePutConflict c s x then .error ()
  else .ok (putList c s x)

/-- Embedding of `DatabaseService.delete` (`database.js` lines 116-125):
`store.delete(key)` always resolves and removes the record of that key
when present. -/
def delete (c : StoreConfig α) (s : List α) (k : String) : List α :=
  s.filter (fun y => c.keyPath y != k)

/-- Embedding of `DatabaseService.clear` (`database.js` lines 130-139). -/
def clear (_c : StoreConfig α) (_s : List α) : List α :=
  []

/-- A sequence of `add` calls issued as independent transactions whose
promises are joined by `Promise.all` (the per-store loops of the JSON
import): every call is attempted, a failing call leaves the store
unchanged, and the flag records whether all calls succeeded. -/
def addAll (c : StoreConfig α) : List α → List α → List α × Bool
  | s, [] => (s, true)
  | s, x :: xs =>
    match add c s x with
    | .ok s1 => addAll c s1 xs
    | .error _ => ((addAll c s xs).1, false)

/-- A sequence of `update` calls issued as independent transactions whose
promises are joined by `Promise.all` (the per-store loops of `saveAll`). -/
def putAll (c : StoreConfig α) : List α → List α → List α × Bool
  | s, [] => (s, true)
  | s, x :: xs =>
    match update c s x with
    | .ok s1 => putAll c s1 xs
    | .error _ => ((putAll c s xs).1, false)

end DatabaseService

/-- Contents of the three object stores of `clinicpro_db`. -/
structure DB where
  doctors : List Doctor
  patients : List Patient
  appointments : List Appointment
deriving DecidableEq, Repr

/-- A database with all three stores empty. -/
def emptyDB : DB :=
  ⟨[], [], []⟩

/-- The bundle `DatabaseService.export` serializes (`database.js` lines
174-184): the three stores' contents, an `exportedAt` timestamp and the
configured version. JSON serialization of these plain records is taken as
faithful, so the bundle is modelled structurally. -/
structure Bundle where
  doctors : List Doctor
  patients : List Patient
  appointments : List Appointment
  exportedAt : String
  version : Nat
deriving DecidableEq, Repr

/-- The `{ doctors, patients, appointments }` object handed to
`DatabaseService.saveAll` by `ClinicProApp.saveData`. -/
structure SaveData where
  doctors : List Doctor
  patients : List Patient
  appointments : List Appointment
deriving DecidableEq, Repr

namespace DatabaseService

/-- Embedding of `DatabaseService.saveAll` (`database.js` lines 144-169):
one independent `update` call per record of the three arrays, all joined
by one `Promise.all`. -/
def saveAll (data : SaveData) (db : DB) : DB × Bool :=
  let d := putAll doctorsStore db.doctors data.doctors
  let p := putAll patientsStore db.patients data.patients
  let a := putAll appointmentsStore db.appointments data.appointments
  (⟨d.1, p.1, a.1⟩, d.2 && p.2 && a.2)

/-- Embedding of `DatabaseService.export` (`database.js` lines 174-184);
`now` stands for `new Date().toISOString()`. -/
def exportDB (db : DB) (now : String) : Bundle :=
  ⟨getAll doctorsStore db.doctors,
   getAll patientsStore db.patients,
   getAll appointmentsStore db.appointments,
   now, dbVersion⟩

/-- Embedding of `DatabaseService.import` (`database.js` lines 189-219):
clear the three stores, then one independent `add` call per record of the
bundle's three arrays, joined by one `Promise.all`. The bundle's
`version` and `exportedAt` fields are not consulted. -/
def importBundle (b : Bundle) (db : DB) : DB × Bool :=
  let d0 := clear doctorsStore db.doctors
  let p0 := clear patientsStore db.patients
  let a0 := clear appointmentsStore db.appointments
  let d := addAll doctorsStore d0 b.doctors
  let p := addAll patientsStore p0 b.patients
  let a := addAll appointmentsStore a0 b.appointments
  (⟨d.1, p.1, a.1⟩, d.2 && p.2 && a.2)

end DatabaseService

/-- Replace a bundle's version field, leaving the rest unchanged (used to
state that the import path ignores the version). -/
def Bundle.withVersion (b : Bundle) (v : Nat) : Bundle :=
  ⟨b.doctors, b.patients, b.appointments, b.exportedAt, v⟩

/-- Comparator of the upcoming-appointments sort (`app.js` lines 285-288):
by date, and by time within one date. `apptBefore a b` states that the
comparator does not order `a` strictly after `b`. -/
def apptBefore (a b : Appointment) : Bool :=
  if a.date = b.date then strLE a.time b.time else strLE a.date b.date

/-- Embedding of the data part of
`ClinicProApp.updateUpcomingAppointments` (`app.js` lines 278-289): keep
the appointments dated today or later, sort ascending by date then time,
and keep at most the first 10. `today` stands for the current date
string, the date part of `new Date().toISOString()`. -/
def updateUpcomingAppointments (today : String) (appts : List Appointment) : List Appointment :=
  ((appts.filter (fun a => strLE today a.date)).mergeSort apptBefore).take 10

/-- The values of `f` are pairwise distinct across the records of `s`. -/
@[reducible]
def distinctBy {α : Type} (f : α → String) (s : List α) : Prop :=
  s.Pairwise (fun y z => f y ≠ f z)

/-- Well-formedness of an object store's contents, guaranteed by IndexedDB
itself: primary keys are distinct, and so is every key declared in a
`unique: true` index. -/
@[reducible]
def storeWF {α : Type} (c : StoreConfig α) (s : List α) : Prop :=
  distinctBy c.keyPath s ∧ ∀ f ∈ uniqueKeys c, distinctBy f s

/-- Well-formedness of a whole `clinicpro_db` state. -/
@[reducible]
def DB.WF (db : DB) : Prop :=
  storeWF doctorsStore db.doctors ∧ storeWF patientsStore db.patients ∧
    storeWF appointmentsStore db.appointments

/-- Concrete fixture: a doctor record. -/
def wD1 : Doctor :=
  ⟨"d1", "Ahmad", "cardiology", true⟩

/-- Concrete fixture: a second doctor record. -/
def wD2 : Doctor :=
  ⟨"d2", "Laila", "dermatology", true⟩

/-- Concrete fixture: a patient record. -/
def wP1 : Patient :=
  ⟨"p1", "Sara", "0501111111", 25, "f", "2026-01-01T09:00:00.000Z"⟩

/-- Concrete fixture: a second patient record, distinct id and phone. -/
def wP2 : Patient :=
  ⟨"p2", "Omar", "0502222222", 40, "m", "2026-01-02T09:00:00.000Z"⟩

/-- Concrete fixture: a third patient record, distinct id and phone. -/
def wP3 : Patient :=
  ⟨"p3", "Nora", "0503333333", 31, "f", "2026-01-03T09:00:00.000Z"⟩

/-- Concrete fixture: a patient sharing `wP1`'s phone number under a
different id. -/
def wP1phone : Patient :=
  ⟨"p9", "Huda", "0501111111", 52, "f", "2026-01-04T09:00:00.000Z"⟩

/-- Concrete fixture: an appointment record. -/
def wA1 : Appointment :=
  ⟨"a1", "2026-01-04", "09:00", "pending", "checkup", "d1", "p1", "t"⟩

/-- Concrete fixture: a later appointment. -/
def wA2 : Appointment :=
  ⟨"a2", "2026-01-06", "10:00", "pending", "checkup", "d1", "p2", "t"⟩

/-- Concrete fixture: an appointment on the middle date. -/
def wA3 : Appointment :=
  ⟨"a3", "2026-01-05", "11:00", "confirmed", "checkup", "d2", "p1", "t"⟩

/-- Concrete fixture: same date as `wA2`, earlier time. -/
def wA4 : Appointment :=
  ⟨"a4", "2026-01-06", "08:00", "pending", "followup", "d2", "p3", "t"⟩

/-- Concrete fixture: a well-formed database state. -/
def wDB : DB :=
  ⟨[wD1, wD2], [wP1, wP2], [wA1, wA2]⟩

/-! ### Order properties of the embedded JavaScript string comparison -/

theorem charsLE_total : ∀ s t, charsLE s t = true ∨ charsLE t s = true
  | [], _ => Or.inl rfl
  | _ :: _, [] => Or.inr rfl
  | a :: s, b :: t => by
    by_cases hab : a = b
    · subst hab
      rcases charsLE_total s t with h | h
      · exact Or.inl (by simpa [charsLE] using h)
      · exact Or.inr (by simpa [charsLE] using h)
    · have hba : ¬ b = a := fun e => hab e.symm
      rcases lt_or_gt_of_ne hab with hlt | hgt
      · exact Or.inl (by simp [charsLE, hab, hlt])
      · exact Or.inr (by simp [charsLE, hba, hgt])

theorem charsLE_trans : ∀ s t u, charsLE s t = true → charsLE t u = true → charsLE s u = true
  | [], _, _ => fun _ _ => rfl
  | _ :: _, [], _ => fun h1 _ => by simp [charsLE] at h1
  | _ :: _, _ :: _, [] => fun _ h2 => by simp [charsLE] at h2
  | a :: s, b :: t, c :: u => fun h1 h2 => by
    by_cases hab : a = b <;> by_cases hbc : b = c
    · subst hab; subst hbc
      simp only [charsLE, if_pos rfl] at h1 h2 ⊢
      exact charsLE_trans s t u h1 h2
    · subst hab
      simp only [charsLE, if_pos rfl] at h1
      simp only [charsLE, if_neg hbc] at h2 ⊢
      exact h2
    · subst hbc
      simp only [charsLE, if_neg hab] at h1 ⊢
      exact h1
    · simp only [charsLE, if_neg hab] at h1
      simp only [charsLE, if_neg hbc] at h2
      have hac : a < c := lt_trans (of_decide_eq_true h1) (of_decide_eq_true h2)
      simp [charsLE, ne_of_lt hac, hac]

theorem charsLE_antisymm : ∀ s t, charsLE s t = true → charsLE t s = true → s = t
  | [], [] => fun _ _ => rfl
  | [], _ :: _ => fun _ h2 => by simp [charsLE] at h2
  | _ :: _, [] => fun h1 _ => by simp [charsLE] at h1
  | a :: s, b :: t => fun h1 h2 => by
    by_cases hab : a = b
    · subst hab
      simp only [charsLE, if_pos rfl] at h1 h2
      rw [charsLE_antisymm s t h1 h2]
    · have hba : ¬ b = a := fun e => hab e.symm
      simp only [charsLE, if_neg hab] at h1
      simp only [charsLE, if_neg hba] at h2
      exact absurd (of_decide_eq_true h1) (asymm (of_decide_eq_true h2))

theorem strLE_total (a b : String) : strLE a b = true ∨ strLE b a = true :=
  charsLE_total a.data b.data

theorem strLE_trans {a b c : String} (h1 : strLE a b = true) (h2 : strLE b c = true) :
    strLE a c = true :=
  charsLE_trans a.data b.data c.data h1 h2

theorem strLE_antisymm {a b : String} (h1 : strLE a b = true) (h2 : strLE b a = true) : a = b :=
  String.ext (charsLE_antisymm a.data b.data h1 h2)

theorem apptBefore_total (a b : Appointment) : (apptBefore a b || apptBefore b a) = true := by
  unfold apptBefore
  by_cases h : a.date = b.date
  · rw [if_pos h, if_pos h.symm]
    rcases strLE_total a.time b.time with ht | ht <;> simp [ht]
  · have h2 : ¬ b.date = a.date := fun e => h e.symm
    rw [if_neg h, if_neg h2]
    rcases strLE_total a.date b.date with hd | hd <;> simp [hd]

theorem apptBefore_trans (a b c : Appointment) (h1 : apptBefore a b = true)
    (h2 : apptBefore b c = true) : apptBefore a c = true := by
  unfold apptBefore at h1 h2 ⊢
  by_cases hab : a.date = b.date <;> by_cases hbc : b.date = c.date
  · have hac : a.date = c.date := hab.trans hbc
    rw [if_pos hab] at h1
    rw [if_pos hbc] at h2
    rw [if_pos hac]
    exact strLE_trans h1 h2
  · have hac : ¬ a.date = c.date := fun e => hbc (hab.symm.trans e)
    rw [if_neg hbc] at h2
    rw [if_neg hac, hab]
    exact h2
  · have hac : ¬ a.date = c.date := fun e => hab (e.trans hbc.symm)
    rw [if_neg hab] at h1
    rw [if_neg hac, ← hbc]
    exact h1
  · rw [if_neg hab] at h1
    rw [if_neg hbc] at h2
    by_cases hac : a.date = c.date
    · rw [← hac] at h2
      exact absurd (strLE_antisymm h1 h2) hab
    · rw [if_neg hac]
      exact strLE_trans h1 h2

/-! ### Basic characterizations of the single-record store operations -/

namespace DatabaseService

theorem hasKey_eq_true_iff {α : Type} (c : StoreConfig α) (s : List α) (k : String) :
    hasKey c s k = true ↔ ∃ y ∈ s, c.keyPath y = k := by
  simp [hasKey, List.any_eq_true]

theorem hasKey_eq_false_iff {α : Type} (c : StoreConfig α) (s : List α) (k : String) :
    hasKey c s k = false ↔ ∀ y ∈ s, c.keyPath y ≠ k := by
  simp [hasKey]

theorem uniqueAddConflict_eq_false_iff {α : Type} (c : StoreConfig α) (s : List α) (x : α) :
    uniqueAddConflict c s x = false ↔ ∀ f ∈ uniqueKeys c, ∀ y ∈ s, f y ≠ f x := by
  simp [uniqueAddConflict]

theorem uniquePutConflict_eq_false_iff {α : Type} (c : StoreConfig α) (s : List α) (x : α) :
    uniquePutConflict c s x = false ↔
      ∀ f ∈ uniqueKeys c, ∀ y ∈ s, c.keyPath y ≠ c.keyPath x → f y ≠ f x := by
  simp [uniquePutConflict]

theorem add_eq_ok_iff {α : Type} (c : StoreConfig α) (s : List α) (x : α) (s1 : List α) :
    add c s x = .ok s1 ↔
      hasKey c s (c.keyPath x) = false ∧ uniqueAddConflict c s x = false ∧ s1 = s ++ [x] := by
  cases hk : hasKey c s (c.keyPath x) <;> cases hc : uniqueAddConflict c s x <;>
    simp [add, hk, hc, eq_comm]

theorem add_eq_error_of_mem_key {α : Type} {c : StoreConfig α} {s : List α} {x y : α}
    (hy : y ∈ s) (hk : c.keyPath y = c.keyPath x) : add c s x = .error () := by
  have h : hasKey c s (c.keyPath x) = true := (hasKey_eq_true_iff c s _).mpr ⟨y, hy, hk⟩
  simp [add, h]

theorem update_eq_ok_iff {α : Type} (c : StoreConfig α) (s : List α) (x : α) (s1 : List α) :
    update c s x = .ok s1 ↔ uniquePutConflict c s x = false ∧ s1 = putList c s x := by
  cases hc : uniquePutConflict c s x <;> simp [update, hc, eq_comm]

theorem get_eq_none_iff {α : Type} (c : StoreConfig α) (s : List α) (k : String) :
    get c s k = none ↔ ∀ y ∈ s, c.keyPath y ≠ k := by
  simp [get, List.find?_eq_none]

theorem get_eq_some_of_mem {α : Type} {c : StoreConfig α} {s : List α} {y : α} {k : String}
    (hd : distinctBy c.keyPath s) (hy : y ∈ s) (hk : c.keyPath y = k) :
    get c s k = some y := by
  induction s with
  | nil => cases hy
  | cons z t ih =>
    obtain ⟨hz, ht⟩ := List.pairwise_cons.mp hd
    cases hy with
    | head =>
      simp [get, List.find?_cons, hk]
    | tail _ hyt =>
      have hzk : ¬ (c.keyPath z = k) := fun e => hz y hyt (e.trans hk.symm)
      have : get c (z :: t) k = get c t k := by
        simp [get, List.find?_cons, hzk]
      rw [this]
      exact ih ht hyt

theorem keyPath_replace {α : Type} (c : StoreConfig α) (x y : α) :
    c.keyPath (if c.keyPath y == c.keyPath x then x else y) = c.keyPath y := by
  by_cases h : c.keyPath y = c.keyPath x
  · simp [h]
  · simp [h]

theorem find?_replace_self {α : Type} (c : StoreConfig α) (x : α) :
    ∀ s : List α, hasKey c s (c.keyPath x) = true →
      (s.map (fun y => if c.keyPath y == c.keyPath x then x else y)).find?
        (fun y => c.keyPath y == c.keyPath x) = some x
  | [], hk => by simp [hasKey] at hk
  | z :: t, hk => by
    rw [List.map_cons]
    by_cases hz : c.keyPath z = c.keyPath x
    · have hg : (if c.keyPath z == c.keyPath x then x else z) = x := by simp [hz]
      rw [hg, List.find?_cons_of_pos _ (by simp)]
    · have hg : (if c.keyPath z == c.keyPath x then x else z) = z := by simp [hz]
      have hk2 : hasKey c t (c.keyPath x) = true := by
        simpa [hasKey, List.any_cons, hz] using hk
      rw [hg, List.find?_cons_of_neg _ (by simp [hz])]
      exact find?_replace_self c x t hk2

theorem find?_replace_other {α : Type} (c : StoreConfig α) (x : α) (k : String)
    (hne : k ≠ c.keyPath x) :
    ∀ s : List α,
      (s.map (fun y => if c.keyPath y == c.keyPath x then x else y)).find?
        (fun y => c.keyPath y == k) = s.find? (fun y => c.keyPath y == k)
  | [] => rfl
  | z :: t => by
    rw [List.map_cons]
    by_cases hz : c.keyPath z = k
    · have hzx : ¬ (c.keyPath z = c.keyPath x) := fun e => hne (hz ▸ e)
      have hg : (if c.keyPath z == c.keyPath x then x else z) = z := by simp [hzx]
      rw [hg, List.find?_cons_of_pos _ (by simp [hz]), List.find?_cons_of_pos _ (by simp [hz])]
    · rw [List.find?_cons_of_neg _ (by rw [keyPath_replace]; simp [hz]),
        List.find?_cons_of_neg _ (by simp [hz])]
      exact find?_replace_other c x k hne t

theorem putList_get_self {α : Type} (c : StoreConfig α) (s : List α) (x : α) :
    get c (putList c s x) (c.keyPath x) = some x := by
  unfold putList
  cases hk : hasKey c s (c.keyPath x) with
  | true =>
    rw [if_pos rfl]
    exact find?_replace_self c x s hk
  | false =>
    rw [if_neg (by simp)]
    have hnone : s.find? (fun y => c.keyPath y == c.keyPath x) = none := by
      rw [List.find?_eq_none]
      intro y hy
      simpa using (hasKey_eq_false_iff c s _).mp hk y hy
    show (s ++ [x]).find? (fun y => c.keyPath y == c.keyPath x) = some x
    rw [List.find?_append, hnone, Option.none_or, List.find?_cons_of_pos _ (by simp)]

theorem putList_get_other {α : Type} (c : StoreConfig α) (s : List α) (x : α) (k : String)
    (hne : k ≠ c.keyPath x) : get c (putList c s x) k = get c s k := by
  unfold putList
  cases hk : hasKey c s (c.keyPath x) with
  | true =>
    rw [if_pos rfl]
    exact find?_replace_other c x k hne s
  | false =>
    rw [if_neg (by simp)]
    have hxk : ¬ (c.keyPath x = k) := fun e => hne e.symm
    show (s ++ [x]).find? (fun y => c.keyPath y == k) = get c s k
    rw [List.find?_append, List.find?_cons_of_neg _ (by simp [hxk])]
    simp [get, Option.or_none]

end DatabaseService

/-! ### Preservation of the store invariants by the CRUD operations -/

namespace DatabaseService

theorem distinctBy_keyPath_append_of_fresh {α : Type} {c : StoreConfig α} {s : List α} {x : α}
    (hd : distinctBy c.keyPath s) (hx : ∀ y ∈ s, c.keyPath y ≠ c.keyPath x) :
    distinctBy c.keyPath (s ++ [x]) := by
  rw [distinctBy, List.pairwise_append]
  exact ⟨hd, List.pairwise_singleton _ _, fun y hy z hz => by
    rw [List.mem_singleton] at hz
    exact hz ▸ hx y hy⟩

theorem distinctBy_append_of_fresh {α : Type} {f : α → String} {s : List α} {x : α}
    (hd : distinctBy f s) (hx : ∀ y ∈ s, f y ≠ f x) : distinctBy f (s ++ [x]) := by
  rw [distinctBy, List.pairwise_append]
  exact ⟨hd, List.pairwise_singleton _ _, fun y hy z hz => by
    rw [List.mem_singleton] at hz
    exact hz ▸ hx y hy⟩

theorem distinctBy_keyPath_putList {α : Type} {c : StoreConfig α} {s : List α} {x : α}
    (hd : distinctBy c.keyPath s) : distinctBy c.keyPath (putList c s x) := by
  unfold putList
  cases hk : hasKey c s (c.keyPath x) with
  | true =>
    rw [if_pos rfl, distinctBy, List.pairwise_map]
    refine hd.imp ?h
    intro a b hab
    rw [keyPath_replace, keyPath_replace]
    exact hab
  | false =>
    rw [if_neg (by simp)]
    exact distinctBy_keyPath_append_of_fresh hd ((hasKey_eq_false_iff c s _).mp hk)

theorem distinctBy_map_replace {α : Type} (c : StoreConfig α) (f : α → String) (x : α) :
    ∀ s : List α, distinctBy c.keyPath s → distinctBy f s →
      (∀ y ∈ s, c.keyPath y ≠ c.keyPath x → f y ≠ f x) →
      distinctBy f (s.map (fun y => if c.keyPath y == c.keyPath x then x else y))
  | [], _, _, _ => List.Pairwise.nil
  | z :: t, hkd, hfd, hconf => by
    obtain ⟨hkz, hkt⟩ := List.pairwise_cons.mp hkd
    obtain ⟨hfz, hft⟩ := List.pairwise_cons.mp hfd
    rw [List.map_cons, distinctBy, List.pairwise_cons]
    constructor
    · intro b hb
      obtain ⟨w, hw, hwb⟩ := List.mem_map.mp hb
      by_cases hz : c.keyPath z = c.keyPath x <;> by_cases hwx : c.keyPath w = c.keyPath x
      · exact absurd (hz.trans hwx.symm) (hkz w hw)
      · have h1 : (if c.keyPath z == c.keyPath x then x else z) = x := by simp [hz]
        have h2 : (if c.keyPath w == c.keyPath x then x else w) = w := by simp [hwx]
        rw [h1, ← hwb, h2]
        exact fun e => hconf w (List.mem_cons_of_mem _ hw) hwx (e.symm)
      · have h1 : (if c.keyPath z == c.keyPath x then x else z) = z := by simp [hz]
        have h2 : (if c.keyPath w == c.keyPath x then x else w) = x := by simp [hwx]
        rw [h1, ← hwb, h2]
        exact hconf z (List.mem_cons_self _ _) hz
      · have h1 : (if c.keyPath z == c.keyPath x then x else z) = z := by simp [hz]
        have h2 : (if c.keyPath w == c.keyPath x then x else w) = w := by simp [hwx]
        rw [h1, ← hwb, h2]
        exact hfz w hw
    · exact distinctBy_map_replace c f x t hkt hft
        (fun y hy => hconf y (List.mem_cons_of_mem _ hy))

theorem distinctBy_putList {α : Type} {c : StoreConfig α} {f : α → String} {s : List α} {x : α}
    (hkd : distinctBy c.keyPath s) (hfd : distinctBy f s)
    (hconf : ∀ y ∈ s, c.keyPath y ≠ c.keyPath x → f y ≠ f x) :
    distinctBy f (putList c s x) := by
  unfold putList
  cases hk : hasKey c s (c.keyPath x) with
  | true =>
    rw [if_pos rfl]
    exact distinctBy_map_replace c f x s hkd hfd hconf
  | false =>
    rw [if_neg (by simp)]
    have hall : ∀ y ∈ s, c.keyPath y ≠ c.keyPath x := (hasKey_eq_false_iff c s _).mp hk
    exact distinctBy_append_of_fresh hfd (fun y hy => hconf y hy (hall y hy))

theorem storeWF_add {α : Type} {c : StoreConfig α} {s s1 : List α} {x : α}
    (hwf : storeWF c s) (h : add c s x = .ok s1) : storeWF c s1 := by
  obtain ⟨hk, hc, hs⟩ := (add_eq_ok_iff c s x s1).mp h
  subst hs
  refine ⟨distinctBy_keyPath_append_of_fresh hwf.1 ((hasKey_eq_false_iff c s _).mp hk), ?u⟩
  intro f hf
  exact distinctBy_append_of_fresh (hwf.2 f hf)
    ((uniqueAddConflict_eq_false_iff c s x).mp hc f hf)

theorem storeWF_update {α : Type} {c : StoreConfig α} {s s1 : List α} {x : α}
    (hwf : storeWF c s) (h : update c s x = .ok s1) : storeWF c s1 := by
  obtain ⟨hc, hs⟩ := (update_eq_ok_iff c s x s1).mp h
  subst hs
  refine ⟨distinctBy_keyPath_putList hwf.1, ?u⟩
  intro f hf
  exact distinctBy_putList hwf.1 (hwf.2 f hf)
    (fun y hy hne => (uniquePutConflict_eq_false_iff c s x).mp hc f hf y hy hne)

theorem storeWF_delete {α : Type} {c : StoreConfig α} {s : List α} {k : String}
    (hwf : storeWF c s) : storeWF c (delete c s k) := by
  refine ⟨hwf.1.sublist (List.filter_sublist s), ?u⟩
  intro f hf
  exact (hwf.2 f hf).sublist (List.filter_sublist s)

theorem storeWF_clear {α : Type} (c : StoreConfig α) (s : List α) : storeWF c (clear c s) :=
  ⟨List.Pairwise.nil, fun _ _ => List.Pairwise.nil⟩

end DatabaseService

/-! ### Bulk operations: sequences of independent add / update calls -/

namespace DatabaseService

theorem addAll_of_fresh {α : Type} (c : StoreConfig α) :
    ∀ (xs s : List α), distinctBy c.keyPath (s ++ xs) →
      (∀ f ∈ uniqueKeys c, distinctBy f (s ++ xs)) → addAll c s xs = (s ++ xs, true)
  | [], s, _, _ => by simp [addAll]
  | x :: xs, s, hkd, hfd => by
    have hsplit := List.pairwise_append.mp hkd
    have hk : hasKey c s (c.keyPath x) = false := by
      rw [hasKey_eq_false_iff]
      exact fun y hy => hsplit.2.2 y hy x (List.mem_cons_self _ _)
    have hc : uniqueAddConflict c s x = false := by
      rw [uniqueAddConflict_eq_false_iff]
      intro f hf y hy
      exact (List.pairwise_append.mp (hfd f hf)).2.2 y hy x (List.mem_cons_self _ _)
    have hadd : add c s x = .ok (s ++ [x]) := by
      simp [add, hk, hc]
    have hassoc : s ++ [x] ++ xs = s ++ x :: xs := by
      rw [List.append_assoc]
      rfl
    have ih := addAll_of_fresh c xs (s ++ [x]) (by rwa [hassoc])
      (fun f hf => by rw [hassoc]; exact hfd f hf)
    simp only [addAll]
    rw [hadd]
    show addAll c (s ++ [x]) xs = (s ++ x :: xs, true)
    rw [ih, hassoc]

theorem addAll_state_of_flag {α : Type} (c : StoreConfig α) :
    ∀ (xs s : List α), (addAll c s xs).2 = true → (addAll c s xs).1 = s ++ xs
  | [], s, _ => by simp [addAll]
  | x :: xs, s, hflag => by
    cases hadd : add c s x with
    | ok s1 =>
      obtain ⟨_, _, hs1⟩ := (add_eq_ok_iff c s x s1).mp hadd
      subst hs1
      have hflag2 : (addAll c (s ++ [x]) xs).2 = true := by
        simpa only [addAll, hadd] using hflag
      have := addAll_state_of_flag c xs (s ++ [x]) hflag2
      simp only [addAll, hadd, this, List.append_assoc]
      rfl
    | error e =>
      exfalso
      simp only [addAll, hadd] at hflag
      exact Bool.false_ne_true hflag

theorem putAll_get_of_not_listed {α : Type} (c : StoreConfig α) (k : String) :
    ∀ (xs s : List α), (∀ x ∈ xs, c.keyPath x ≠ k) →
      get c (putAll c s xs).1 k = get c s k
  | [], s, _ => by simp [putAll]
  | x :: xs, s, hx => by
    have hxk : k ≠ c.keyPath x := fun e => hx x (List.mem_cons_self _ _) e.symm
    have htail : ∀ y ∈ xs, c.keyPath y ≠ k := fun y hy => hx y (List.mem_cons_of_mem _ hy)
    cases hupd : update c s x with
    | ok s1 =>
      obtain ⟨_, hs1⟩ := (update_eq_ok_iff c s x s1).mp hupd
      subst hs1
      simp only [putAll, hupd]
      rw [putAll_get_of_not_listed c k xs _ htail]
      exact putList_get_other c s x k hxk
    | error e =>
      simp only [putAll, hupd]
      exact putAll_get_of_not_listed c k xs s htail

theorem putAll_get_last {α : Type} (c : StoreConfig α) (x : α) (l₂ : List α)
    (hl₂ : ∀ y ∈ l₂, c.keyPath y ≠ c.keyPath x) :
    ∀ (l₁ s : List α), (putAll c s (l₁ ++ x :: l₂)).2 = true →
      get c (putAll c s (l₁ ++ x :: l₂)).1 (c.keyPath x) = some x
  | [], s, hflag => by
    rw [List.nil_append] at hflag ⊢
    cases hupd : update c s x with
    | ok s1 =>
      obtain ⟨_, hs1⟩ := (update_eq_ok_iff c s x s1).mp hupd
      simp only [putAll, hupd]
      rw [putAll_get_of_not_listed c (c.keyPath x) l₂ s1 hl₂, hs1]
      exact putList_get_self c s x
    | error e =>
      exfalso
      simp only [putAll, hupd] at hflag
      exact Bool.false_ne_true hflag
  | y :: l₁, s, hflag => by
    rw [List.cons_append] at hflag ⊢
    cases hupd : update c s y with
    | ok s1 =>
      have hflag2 : (putAll c s1 (l₁ ++ x :: l₂)).2 = true := by
        simpa only [putAll, hupd] using hflag
      simp only [putAll, hupd]
      exact putAll_get_last c x l₂ hl₂ l₁ s1 hflag2
    | error e =>
      exfalso
      simp only [putAll, hupd] at hflag
      exact Bool.false_ne_true hflag

end DatabaseService

/-! ### Claims -/

open DatabaseService in
/-- Claim C1, counterexample: the claim asserts that `update` succeeds
unconditionally for every collection and record, but on the `patients`
store (whose `phone` index is declared `unique: true`) `store.put`
rejects a record whose phone number is already held by a patient stored
under a different id. Concretely, with `wP1` stored, updating `wP1phone`
(different id `p9`, same phone `0501111111`) fails. -/
theorem claim_C1_counterexample :
    DatabaseService.update patientsStore [wP1] wP1phone = .error () ∧
    patientsStore.keyPath wP1phone ≠ patientsStore.keyPath wP1 ∧
    phoneKey wP1phone = phoneKey wP1 :=
  ⟨rfl, by decide, rfl⟩

open DatabaseService in
/-- Claim C1, amended: for every collection, `add` fails whenever the
record's id is already the key of a stored record; `update` succeeds
whenever no unique-index key of the record collides with a record stored
under a different id - in particular unconditionally on collections with
no unique index - and then upserts: the record becomes retrievable under
its id, every other id reads as before, and an absent id results in an
insertion; `update` fails exactly when such a unique-index collision
exists. -/
theorem claim_C1_amended (α : Type) (c : StoreConfig α) (s : List α) (x : α) :
    ((∃ y ∈ s, c.keyPath y = c.keyPath x) → DatabaseService.add c s x = .error ()) ∧
    (uniquePutConflict c s x = false →
      DatabaseService.update c s x = .ok (putList c s x) ∧
      DatabaseService.get c (putList c s x) (c.keyPath x) = some x ∧
      (∀ k, k ≠ c.keyPath x → DatabaseService.get c (putList c s x) k =
        DatabaseService.get c s k) ∧
      (hasKey c s (c.keyPath x) = false → putList c s x = s ++ [x])) ∧
    (uniqueKeys c = [] → DatabaseService.update c s x = .ok (putList c s x)) ∧
    (uniquePutConflict c s x = true → DatabaseService.update c s x = .error ()) := by
  refine ⟨?g1, ?g2, ?g3, ?g4⟩
  · rintro ⟨y, hy, hk⟩
    exact add_eq_error_of_mem_key hy hk
  · intro hc
    refine ⟨by simp [DatabaseService.update, hc], putList_get_self c s x,
      fun k hk => putList_get_other c s x k hk, ?u4⟩
    intro hkf
    simp [putList, hkf]
  · intro hu
    have hc : uniquePutConflict c s x = false := by
      simp [uniquePutConflict, hu]
    simp [DatabaseService.update, hc]
  · intro hc
    simp [DatabaseService.update, hc]

open DatabaseService in
/-- Claim C1, witness: with patients `wP1`, `wP2` stored, adding a record
with the stored id `p1` fails, while updating the fresh record `wP3`
(no phone collision) succeeds. -/
theorem claim_C1_witness :
    DatabaseService.add patientsStore [wP1, wP2] wP1 = .error () ∧
    DatabaseService.update patientsStore [wP1, wP2] wP3 =
      .ok (putList patientsStore [wP1, wP2] wP3) :=
  ⟨(claim_C1_amended Patient patientsStore [wP1, wP2] wP1).1 ⟨wP1, by decide, rfl⟩,
   ((claim_C1_amended Patient patientsStore [wP1, wP2] wP3).2.1 (by decide)).1⟩

open DatabaseService in
/-- Claim C3: phone numbers are unique among stored patients. Adding a
patient whose phone is already held by a stored patient fails; the unique
keys of the `patients` store - the storage layer's configuration, not
application logic - consist exactly of the phone extractor; and the
store invariant (distinct ids and distinct values for every unique index
key, hence distinct phones) is preserved by `add`, `update`, `delete`
and `clear`. -/
theorem claim_C3 :
    (∀ (s : List Patient) (p q : Patient), q ∈ s → phoneKey q = phoneKey p →
      DatabaseService.add patientsStore s p = .error ()) ∧
    (∀ f, f ∈ uniqueKeys patientsStore ↔ f = phoneKey) ∧
    (∀ s, storeWF patientsStore s → distinctBy phoneKey s) ∧
    (∀ s p s1, storeWF patientsStore s → DatabaseService.add patientsStore s p = .ok s1 →
      storeWF patientsStore s1) ∧
    (∀ s p s1, storeWF patientsStore s → DatabaseService.update patientsStore s p = .ok s1 →
      storeWF patientsStore s1) ∧
    (∀ s k, storeWF patientsStore s →
      storeWF patientsStore (DatabaseService.delete patientsStore s k)) ∧
    (∀ s, storeWF patientsStore (DatabaseService.clear patientsStore s)) := by
  have huk : uniqueKeys patientsStore = [phoneKey] := rfl
  refine ⟨?g1, ?g2, ?g3, ?g4, ?g5, ?g6, ?g7⟩
  · intro s p q hq hph
    by_cases hk : patientsStore.keyPath q = patientsStore.keyPath p
    · exact add_eq_error_of_mem_key hq hk
    · have hc : uniqueAddConflict patientsStore s p = true := by
        refine List.any_eq_true.mpr ⟨phoneKey, ?m, List.any_eq_true.mpr ⟨q, hq, by simp [hph]⟩⟩
        rw [huk]
        exact List.mem_singleton.mpr rfl
      simp [DatabaseService.add, hc]
  · intro f
    rw [huk, List.mem_singleton]
  · intro s hwf
    exact hwf.2 phoneKey (huk ▸ List.mem_singleton.mpr rfl)
  · intro s p s1 hwf h
    exact storeWF_add hwf h
  · intro s p s1 hwf h
    exact storeWF_update hwf h
  · intro s k hwf
    exact storeWF_delete hwf
  · intro s
    exact storeWF_clear patientsStore s

open DatabaseService in
/-- Claim C3, witness: with `wP1`, `wP2` stored, adding `wP1phone` (phone
of `wP1` under a new id) fails, and the invariant holds after adding the
fresh `wP3`. -/
theorem claim_C3_witness :
    DatabaseService.add patientsStore [wP1, wP2] wP1phone = .error () ∧
    storeWF patientsStore [wP1, wP2, wP3] :=
  ⟨claim_C3.1 [wP1, wP2] wP1phone wP1 (by decide) rfl,
   claim_C3.2.2.2.1 [wP1, wP2] wP3 [wP1, wP2, wP3] (by decide) rfl⟩

open DatabaseService in
/-- Claim C6: `get` returns the stored record whose id equals the key
when one exists (ids being distinct in a store), and an empty result -
`none`, not an error - when no stored record has that id. -/
theorem claim_C6 (α : Type) (c : StoreConfig α) (s : List α) (k : String) :
    ((∀ y ∈ s, c.keyPath y ≠ k) → DatabaseService.get c s k = none) ∧
    (distinctBy c.keyPath s → ∀ y ∈ s, c.keyPath y = k → DatabaseService.get c s k = some y) :=
  ⟨fun h => (get_eq_none_iff c s k).mpr h, fun hd y hy hk => get_eq_some_of_mem hd hy hk⟩

open DatabaseService in
/-- Claim C6, witness: with `wP1`, `wP2` stored, `get` at `p2` returns
`wP2`, and `get` at an absent id returns the empty result. -/
theorem claim_C6_witness :
    DatabaseService.get patientsStore [wP1, wP2] "p2" = some wP2 ∧
    DatabaseService.get patientsStore [wP1, wP2] "p7" = none :=
  ⟨(claim_C6 Patient patientsStore [wP1, wP2] "p2").2 (by decide) wP2 (by decide) (by decide),
   (claim_C6 Patient patientsStore [wP1, wP2] "p7").1 (by decide)⟩

open DatabaseService in
/-- Claim C7: `delete` always succeeds; afterwards no record with the
given id is stored (membership in the result is membership before minus
that id), and when no stored record has the id, the collection is left
unchanged. -/
theorem claim_C7 (α : Type) (c : StoreConfig α) (s : List α) (k : String) :
    DatabaseService.get c (DatabaseService.delete c s k) k = none ∧
    (∀ y, y ∈ DatabaseService.delete c s k ↔ y ∈ s ∧ c.keyPath y ≠ k) ∧
    ((∀ y ∈ s, c.keyPath y ≠ k) → DatabaseService.delete c s k = s) := by
  refine ⟨?g1, ?g2, ?g3⟩
  · rw [get_eq_none_iff]
    intro y hy
    exact bne_iff_ne.mp (List.mem_filter.mp hy).2
  · intro y
    simp [DatabaseService.delete, List.mem_filter]
  · intro h
    unfold DatabaseService.delete
    rw [List.filter_eq_self]
    intro y hy
    exact bne_iff_ne.mpr (h y hy)

open DatabaseService in
/-- Claim C7, witness: deleting `p1` from the two stored patients leaves
`p1` unretrievable, and deleting an absent id leaves the store unchanged. -/
theorem claim_C7_witness :
    DatabaseService.get patientsStore (DatabaseService.delete patientsStore [wP1, wP2] "p1")
      "p1" = none ∧
    DatabaseService.delete patientsStore [wP1, wP2] "p7" = [wP1, wP2] :=
  ⟨(claim_C7 Patient patientsStore [wP1, wP2] "p1").1,
   (claim_C7 Patient patientsStore [wP1, wP2] "p7").2.2 (by decide)⟩

open DatabaseService in
/-- Claim C9: `export` produces a bundle whose `doctors`, `patients` and
`appointments` fields equal the three collections' contents (as read by
`getAll`), whose `exportedAt` field is the serialization-time timestamp
(`new Date().toISOString()`, an ISO-8601 string by the platform's
contract, passed here as `now`), and whose `version` field is the
configured database version, 2. -/
theorem claim_C9 (db : DB) (now : String) :
    (exportDB db now).doctors = getAll doctorsStore db.doctors ∧
    (exportDB db now).patients = getAll patientsStore db.patients ∧
    (exportDB db now).appointments = getAll appointmentsStore db.appointments ∧
    (exportDB db now).exportedAt = now ∧
    (exportDB db now).version = dbVersion ∧
    dbVersion = 2 :=
  ⟨rfl, rfl, rfl, rfl, rfl, rfl⟩

open DatabaseService in
/-- Claim C2: for every well-formed database state (distinct ids per
store and distinct values for every unique index key, as IndexedDB
guarantees for its own stores), exporting and then importing the bundle
into an empty database reproduces the original three collections'
contents exactly, with every record admitted. -/
theorem claim_C2 (db : DB) (now : String) (h : DB.WF db) :
    importBundle (exportDB db now) emptyDB = (db, true) := by
  obtain ⟨⟨hd1, hd2⟩, ⟨hp1, hp2⟩, ⟨ha1, ha2⟩⟩ := h
  have d := addAll_of_fresh doctorsStore db.doctors []
    (by simpa using hd1) (fun f hf => by simpa using hd2 f hf)
  have p := addAll_of_fresh patientsStore db.patients []
    (by simpa using hp1) (fun f hf => by simpa using hp2 f hf)
  have a := addAll_of_fresh appointmentsStore db.appointments []
    (by simpa using ha1) (fun f hf => by simpa using ha2 f hf)
  show (⟨(addAll doctorsStore [] db.doctors).1, (addAll patientsStore [] db.patients).1,
      (addAll appointmentsStore [] db.appointments).1⟩,
    (addAll doctorsStore [] db.doctors).2 && (addAll patientsStore [] db.patients).2 &&
      (addAll appointmentsStore [] db.appointments).2) = (db, true)
  rw [d, p, a]
  rfl

open DatabaseService in
/-- Claim C2, witness: the concrete well-formed state `wDB` round-trips
through `export` and `import` on an empty database. -/
theorem claim_C2_witness :
    importBundle (exportDB wDB "2026-02-01T00:00:00.000Z") emptyDB = (wDB, true) :=
  claim_C2 wDB "2026-02-01T00:00:00.000Z" (by decide)

open DatabaseService in
/-- Claim C4: a successful `import` leaves each collection containing
exactly the records of the bundle's corresponding array; the prior
database contents are irrelevant (the three stores are cleared first);
and the bundle's `version` field is not consulted at all - in
particular, no schema-version comparison beyond (at most) equality is
performed, since the import result is invariant under every change of
the version field. -/
theorem claim_C4 (b : Bundle) (db : DB) :
    ((importBundle b db).2 = true →
      (importBundle b db).1.doctors = b.doctors ∧
      (importBundle b db).1.patients = b.patients ∧
      (importBundle b db).1.appointments = b.appointments) ∧
    importBundle b db = importBundle b emptyDB ∧
    (∀ v, importBundle (b.withVersion v) db = importBundle b db) := by
  refine ⟨?g1, rfl, fun v => rfl⟩
  intro hflag
  have hsplit : ((addAll doctorsStore [] b.doctors).2 && (addAll patientsStore [] b.patients).2)
      = true ∧ (addAll appointmentsStore [] b.appointments).2 = true :=
    Bool.and_eq_true_iff.mp hflag
  have hd := Bool.and_eq_true_iff.mp hsplit.1
  refine ⟨?c1, ?c2, ?c3⟩
  · show (addAll doctorsStore [] b.doctors).1 = b.doctors
    rw [addAll_state_of_flag doctorsStore b.doctors [] hd.1]
    rfl
  · show (addAll patientsStore [] b.patients).1 = b.patients
    rw [addAll_state_of_flag patientsStore b.patients [] hd.2]
    rfl
  · show (addAll appointmentsStore [] b.appointments).1 = b.appointments
    rw [addAll_state_of_flag appointmentsStore b.appointments [] hsplit.2]
    rfl

open DatabaseService in
/-- Claim C4, witness: a concrete bundle (version 99, not the configured
2) imports successfully over the non-empty prior state `wDB`, and each
collection afterwards holds exactly the bundle's array. -/
theorem claim_C4_witness :
    (importBundle (⟨[wD1], [wP1], [wA1, wA2], "t", 99⟩ : Bundle) wDB).1.doctors = [wD1] ∧
    (importBundle (⟨[wD1], [wP1], [wA1, wA2], "t", 99⟩ : Bundle) wDB).1.patients = [wP1] ∧
    (importBundle (⟨[wD1], [wP1], [wA1, wA2], "t", 99⟩ : Bundle) wDB).1.appointments =
      [wA1, wA2] :=
  (claim_C4 ⟨[wD1], [wP1], [wA1, wA2], "t", 99⟩ wDB).1 (by decide)

open DatabaseService in
/-- Claim C5: `saveAll` equals, by construction, one independent `update`
(upsert) call per record of the bundle's `doctors`, `patients` and
`appointments` arrays, folded per collection with no cross-collection
transaction - the resulting state of each collection is the per-record
update fold of that collection alone, regardless of failures elsewhere.
Stored records whose ids are not listed in the bundle read exactly as
before, and when a collection's updates all succeed, every listed record
(ids listed once) is retrievable afterwards under its id. -/
theorem claim_C5 (data : SaveData) (db : DB) :
    saveAll data db =
      (⟨(putAll doctorsStore db.doctors data.doctors).1,
        (putAll patientsStore db.patients data.patients).1,
        (putAll appointmentsStore db.appointments data.appointments).1⟩,
       (putAll doctorsStore db.doctors data.doctors).2 &&
         (putAll patientsStore db.patients data.patients).2 &&
         (putAll appointmentsStore db.appointments data.appointments).2) ∧
    (∀ k, (∀ x ∈ data.doctors, doctorsStore.keyPath x ≠ k) →
      get doctorsStore (saveAll data db).1.doctors k = get doctorsStore db.doctors k) ∧
    (∀ k, (∀ x ∈ data.patients, patientsStore.keyPath x ≠ k) →
      get patientsStore (saveAll data db).1.patients k = get patientsStore db.patients k) ∧
    (∀ k, (∀ x ∈ data.appointments, appointmentsStore.keyPath x ≠ k) →
      get appointmentsStore (saveAll data db).1.appointments k =
        get appointmentsStore db.appointments k) ∧
    ((putAll doctorsStore db.doctors data.doctors).2 = true →
      distinctBy doctorsStore.keyPath data.doctors → ∀ x ∈ data.doctors,
        get doctorsStore (saveAll data db).1.doctors (doctorsStore.keyPath x) = some x) ∧
    ((putAll patientsStore db.patients data.patients).2 = true →
      distinctBy patientsStore.keyPath data.patients → ∀ x ∈ data.patients,
        get patientsStore (saveAll data db).1.patients (patientsStore.keyPath x) = some x) ∧
    ((putAll appointmentsStore db.appointments data.appointments).2 = true →
      distinctBy appointmentsStore.keyPath data.appointments → ∀ x ∈ data.appointments,
        get appointmentsStore (saveAll data db).1.appointments
          (appointmentsStore.keyPath x) = some x) := by
  refine ⟨rfl, ?g1, ?g2, ?g3, ?g4, ?g5, ?g6⟩
  · intro k hk
    exact putAll_get_of_not_listed doctorsStore k data.doctors db.doctors hk
  · intro k hk
    exact putAll_get_of_not_listed patientsStore k data.patients db.patients hk
  · intro k hk
    exact putAll_get_of_not_listed appointmentsStore k data.appointments db.appointments hk
  · intro hflag hdist x hx
    obtain ⟨l₁, l₂, hsplit⟩ := List.append_of_mem hx
    have hl₂ : ∀ y ∈ l₂, doctorsStore.keyPath y ≠ doctorsStore.keyPath x := by
      rw [hsplit] at hdist
      have := (List.pairwise_cons.mp (List.pairwise_append.mp hdist).2.1).1
      exact fun y hy => (this y hy).symm
    show get doctorsStore (putAll doctorsStore db.doctors data.doctors).1
      (doctorsStore.keyPath x) = some x
    rw [hsplit] at hflag ⊢
    exact putAll_get_last doctorsStore x l₂ hl₂ l₁ db.doctors hflag
  · intro hflag hdist x hx
    obtain ⟨l₁, l₂, hsplit⟩ := List.append_of_mem hx
    have hl₂ : ∀ y ∈ l₂, patientsStore.keyPath y ≠ patientsStore.keyPath x := by
      rw [hsplit] at hdist
      have := (List.pairwise_cons.mp (List.pairwise_append.mp hdist).2.1).1
      exact fun y hy => (this y hy).symm
    show get patientsStore (putAll patientsStore db.patients data.patients).1
      (patientsStore.keyPath x) = some x
    rw [hsplit] at hflag ⊢
    exact putAll_get_last patientsStore x l₂ hl₂ l₁ db.patients hflag
  · intro hflag hdist x hx
    obtain ⟨l₁, l₂, hsplit⟩ := List.append_of_mem hx
    have hl₂ : ∀ y ∈ l₂, appointmentsStore.keyPath y ≠ appointmentsStore.keyPath x := by
      rw [hsplit] at hdist
      have := (List.pairwise_cons.mp (List.pairwise_append.mp hdist).2.1).1
      exact fun y hy => (this y hy).symm
    show get appointmentsStore (putAll appointmentsStore db.appointments data.appointments).1
      (appointmentsStore.keyPath x) = some x
    rw [hsplit] at hflag ⊢
    exact putAll_get_last appointmentsStore x l₂ hl₂ l₁ db.appointments hflag

open DatabaseService in
/-- Claim C5, witness: saving `wD2` (an update of a stored id) and `wP3`
(a new patient) over `wDB` leaves the unlisted id `d1` reading as
before and makes both listed records retrievable. -/
theorem claim_C5_witness :
    get doctorsStore (saveAll ⟨[wD2], [wP3], []⟩ wDB).1.doctors "d1" =
      get doctorsStore wDB.doctors "d1" ∧
    get doctorsStore (saveAll ⟨[wD2], [wP3], []⟩ wDB).1.doctors (doctorsStore.keyPath wD2) =
      some wD2 ∧
    get patientsStore (saveAll ⟨[wD2], [wP3], []⟩ wDB).1.patients (patientsStore.keyPath wP3) =
      some wP3 :=
  ⟨(claim_C5 ⟨[wD2], [wP3], []⟩ wDB).2.1 "d1" (by decide),
   (claim_C5 ⟨[wD2], [wP3], []⟩ wDB).2.2.2.2.1 (by decide) (by decide) wD2 (by decide),
   (claim_C5 ⟨[wD2], [wP3], []⟩ wDB).2.2.2.2.2.1 (by decide) (by decide) wP3 (by decide)⟩

open DatabaseService in
/-- Claim C8: on an empty collection, adding three records with pairwise
distinct ids (and, where a unique index is configured, pairwise distinct
values for its key) succeeds in any insertion order, and `getAll` then
returns exactly those three records as a set: the result is a
permutation of the three, whatever the order of the adds. -/
theorem claim_C8 (α : Type) (c : StoreConfig α) (x1 x2 x3 : α) (ys : List α)
    (h12 : c.keyPath x1 ≠ c.keyPath x2) (h13 : c.keyPath x1 ≠ c.keyPath x3)
    (h23 : c.keyPath x2 ≠ c.keyPath x3)
    (hf : ∀ f ∈ uniqueKeys c, f x1 ≠ f x2 ∧ f x1 ≠ f x3 ∧ f x2 ≠ f x3)
    (hperm : ys.Perm [x1, x2, x3]) :
    addAll c [] ys = (ys, true) ∧ (getAll c (addAll c [] ys).1).Perm [x1, x2, x3] := by
  have hkd : distinctBy c.keyPath [x1, x2, x3] := by
    refine List.pairwise_cons.mpr ⟨?h1, List.pairwise_cons.mpr ⟨?h2,
      List.pairwise_singleton _ _⟩⟩
    · intro y hy
      rcases List.mem_cons.mp hy with h | h
      · exact h ▸ h12
      · rw [List.mem_singleton] at h
        exact h ▸ h13
    · intro y hy
      rw [List.mem_singleton] at hy
      exact hy ▸ h23
  have hkys : distinctBy c.keyPath ys :=
    (hperm.pairwise_iff (fun h => Ne.symm h)).mpr hkd
  have hfys : ∀ f ∈ uniqueKeys c, distinctBy f ys := by
    intro f hfk
    obtain ⟨a12, a13, a23⟩ := hf f hfk
    have hfd : distinctBy f [x1, x2, x3] := by
      refine List.pairwise_cons.mpr ⟨?k1, List.pairwise_cons.mpr ⟨?k2,
        List.pairwise_singleton _ _⟩⟩
      · intro y hy
        rcases List.mem_cons.mp hy with h | h
        · exact h ▸ a12
        · rw [List.mem_singleton] at h
          exact h ▸ a13
      · intro y hy
        rw [List.mem_singleton] at hy
        exact hy ▸ a23
    exact (hperm.pairwise_iff (fun h => Ne.symm h)).mpr hfd
  have hall := addAll_of_fresh c ys [] (by simpa using hkys)
    (fun f hf2 => by simpa using hfys f hf2)
  refine ⟨by simpa using hall, ?g⟩
  show (addAll c [] ys).1.Perm [x1, x2, x3]
  rw [hall]
  simpa using hperm

open DatabaseService in
/-- Claim C8, witness: adding `wP2`, `wP1`, `wP3` in that (permuted)
order to the empty patients store succeeds, and `getAll` returns exactly
the set of the three. -/
theorem claim_C8_witness :
    addAll patientsStore [] [wP2, wP1, wP3] = ([wP2, wP1, wP3], true) ∧
    (getAll patientsStore (addAll patientsStore [] [wP2, wP1, wP3]).1).Perm
      [wP1, wP2, wP3] :=
  claim_C8 Patient patientsStore wP1 wP2 wP3 [wP2, wP1, wP3]
    (by decide) (by decide) (by decide) (by decide) (by decide)

/-- Claim C10: the upcoming-appointments dashboard list is built from
exactly the appointments dated today or later - it is a sub-permutation
of that filtered list, and the whole filtered list whenever at most 10
appointments qualify - ordered ascending by date and, within one date,
ascending by time, and truncated to at most the first 10 entries. -/
theorem claim_C10 (today : String) (appts : List Appointment) :
    (updateUpcomingAppointments today appts).length ≤ 10 ∧
    (∀ a ∈ updateUpcomingAppointments today appts, strLE today a.date = true) ∧
    (updateUpcomingAppointments today appts).Pairwise (fun a b => apptBefore a b = true) ∧
    (updateUpcomingAppointments today appts).Subperm
      (appts.filter (fun a => strLE today a.date)) ∧
    ((appts.filter (fun a => strLE today a.date)).length ≤ 10 →
      (updateUpcomingAppointments today appts).Perm
        (appts.filter (fun a => strLE today a.date))) := by
  have hperm : ((appts.filter (fun a => strLE today a.date)).mergeSort apptBefore).Perm
      (appts.filter (fun a => strLE today a.date)) :=
    List.mergeSort_perm _ apptBefore
  refine ⟨?g1, ?g2, ?g3, ?g4, ?g5⟩
  · show ((((appts.filter (fun a => strLE today a.date)).mergeSort apptBefore)).take 10).length
      ≤ 10
    rw [List.length_take]
    exact min_le_left _ _
  · intro a ha
    have ha2 : a ∈ (appts.filter (fun a => strLE today a.date)).mergeSort apptBefore :=
      (List.take_sublist _ _).subset ha
    exact (List.mem_filter.mp (hperm.mem_iff.mp ha2)).2
  · exact List.Pairwise.sublist (List.take_sublist _ _)
      (List.sorted_mergeSort apptBefore_trans apptBefore_total _)
  · exact ((List.take_sublist _ _).subperm).trans hperm.subperm
  · intro hlen
    have hlen2 : ((appts.filter (fun a => strLE today a.date)).mergeSort apptBefore).length
        ≤ 10 := by
      rw [hperm.length_eq]
      exact hlen
    show ((((appts.filter (fun a => strLE today a.date)).mergeSort apptBefore)).take 10).Perm
      (appts.filter (fun a => strLE today a.date))
    rw [List.take_of_length_le hlen2]
    exact hperm

/-- Claim C10, witness: of the four concrete appointments, `wA1` is
before today and drops out; the remaining three all qualify, so the
dashboard list is exactly a permutation of them. -/
theorem claim_C10_witness :
    (updateUpcomingAppointments "2026-01-05" [wA1, wA2, wA3, wA4]).Perm
      ([wA1, wA2, wA3, wA4].filter (fun a => strLE "2026-01-05" a.date)) :=
  (claim_C10 "2026-01-05" [wA1, wA2, wA3, wA4]).2.2.2.2 (by decide)
